import Mathlib

/-!
Verification of the pkgmanager manifest-resolution and reconciliation core
(src/pkgmanager/cli.py), as a shallow embedding.

Modelling conventions:
- Python dicts are insertion-ordered association lists `List (String × α)`;
  the generic operations `aHas`, `aGet`, `aSet`, `aDel` mirror `in`, `get`,
  assignment and `del` (on well-formed documents keys are unique, so
  `aDel`'s filter over all pairs agrees with Python's single-key `del`).
- The process environment (platform, WSL indicators, tool availability)
  is a record `Env`; `is_available` of each registered manager is the
  oracle `Env.avail` applied to the manager's registry key, matching the
  spec's statement that availability is pure during one run.
- External effects (spawned processes, manifest writes) are returned
  explicitly as lists of events; console printing is not modelled.
-/

set_option linter.unusedVariables false

namespace PkgMgr

/-- Process environment for one run: `sys.platform`, the WSL indicators
read by `_is_wsl` (the `WSL_DISTRO_NAME` variable or /proc/version), and
the availability oracle giving each manager's `is_available()` result. -/
structure Env where
  sysPlatform : String
  wslIndicator : Bool
  avail : String → Bool

/-- Source `_is_macos`: `sys.platform == "darwin"`. -/
def _is_macos (env : Env) : Bool :=
  env.sysPlatform == "darwin"

/-- Source `_is_wsl`: only on linux, and only when the environment marker
or kernel version indicates Microsoft/WSL (both folded into
`wslIndicator`). -/
def _is_wsl (env : Env) : Bool :=
  env.sysPlatform == "linux" && env.wslIndicator

/-- Keys of the `MANAGERS` registry dict, in insertion order. -/
def MANAGERS_keys : List String :=
  ["conda", "python", "rust", "brew", "cask", "mas", "winget", "bun"]

/-- Source `MANAGER_ORDER`. -/
def MANAGER_ORDER : List String :=
  ["brew", "cask", "mas", "winget", "conda", "python", "rust", "bun", "custom"]

/-- Source `CATEGORY_ORDER` (also the insertion order of `CATEGORIES`). -/
def CATEGORY_ORDER : List String :=
  ["mac", "wsl", "general", "custom"]

/-- The `types` field of each entry of `CATEGORIES`. -/
def categoryTypes : String → List String
  | "mac" => ["brew", "cask", "mas"]
  | "wsl" => ["winget"]
  | "general" => ["conda", "python", "rust", "bun"]
  | "custom" => ["custom"]
  | _ => []

/-- The `platform` field of each entry of `CATEGORIES` (`None` for the
always-active categories). -/
def categoryPlatform : String → Option String
  | "mac" => some "darwin"
  | "wsl" => some "wsl"
  | _ => none

/-- Source `_get_active_categories`: a category with platform `None` is
active; a category gated on `"wsl"` is active when `_is_wsl()`; otherwise
active on exact `sys.platform` match (the elif chain). -/
def _get_active_categories (env : Env) : List String :=
  CATEGORY_ORDER.filter (fun cat_name =>
    match categoryPlatform cat_name with
    | none => true
    | some p => (p == "wsl" && _is_wsl env) || p == env.sysPlatform)

/-- Source `_get_category_for_type`: first category (in `CATEGORIES`
iteration order) whose `types` contains the package type. -/
def _get_category_for_type (pkg_type : String) : Option String :=
  CATEGORY_ORDER.find? (fun cat_name => (categoryTypes cat_name).contains pkg_type)

/-- Split a character list at the first occurrence of `sep`: `none` when
`sep` does not occur. This is Python `s.split(sep, 1)` restricted to the
case used by the source. -/
def splitOnFirst (sep : Char) : List Char → Option (List Char × List Char)
  | [] => none
  | c :: rest =>
    if c == sep then some ([], rest)
    else match splitOnFirst sep rest with
      | some ab => some (c :: ab.1, ab.2)
      | none => none

/-- Source `_parse_package_entry`: split a string entry on the first
colon into (name, preferred manager); no colon gives (entry, None). -/
def _parse_package_entry (entry : String) : String × Option String :=
  match splitOnFirst ':' entry.toList with
  | some ab => (String.mk ab.1, some (String.mk ab.2))
  | none => (entry, none)

/-- Source `_resolve_package_manager`: use the preferred manager only if
the preferred string is truthy, it is a registry key, its tool is
available, and one active category lists it; otherwise the default.
(`pkg_name` is unused, as in the source.) -/
def _resolve_package_manager (env : Env) (pkg_name : String)
    (default_type : String) (preferred_type : Option String) : String :=
  match preferred_type with
  | some p =>
    if p ≠ "" then
      if MANAGERS_keys.contains p && env.avail p then
        if (_get_active_categories env).any
            (fun cat_name => (categoryTypes cat_name).contains p) then p
        else default_type
      else default_type
    else default_type
  | none => default_type

/-- Membership test of a string key in an association list (Python
`k in d`). -/
def aHas {α : Type} (l : List (String × α)) (k : String) : Bool :=
  l.any (fun p => p.1 == k)

/-- Lookup of a string key (Python `d.get(k)`). -/
def aGet {α : Type} (l : List (String × α)) (k : String) : Option α :=
  (l.find? (fun p => p.1 == k)).map (fun p => p.2)

/-- Assignment `d[k] = v`: rewrite the binding in place when the key is
present, else append the new binding at the end. -/
def aSet {α : Type} (l : List (String × α)) (k : String) (v : α) :
    List (String × α) :=
  if aHas l k then l.map (fun p => if p.1 == k then (k, v) else p)
  else l ++ [(k, v)]

/-- Deletion `del d[k]` (keys are unique in well-formed documents). -/
def aDel {α : Type} (l : List (String × α)) (k : String) : List (String × α) :=
  l.filter (fun p => p.1 ≠ k)

/-- The `resolved[actual_type]`-create-then-append step of
`_resolve_all_packages`. -/
def dictAppend (d : List (String × List String)) (k v : String) :
    List (String × List String) :=
  if aHas d k then d.map (fun p => if p.1 == k then (p.1, p.2 ++ [v]) else p)
  else d ++ [(k, [v])]

/-- Source `_resolve_all_packages`: regroup a flattened mapping by the
resolved manager of each entry; the custom list is passed through by
dict assignment; empty standard lists are skipped. -/
def _resolve_all_packages (env : Env) (data : List (String × List String)) :
    List (String × List String) :=
  data.foldl (fun resolved dp =>
    if dp.1 == "custom" then aSet resolved "custom" dp.2
    else if dp.2.isEmpty then resolved
    else dp.2.foldl (fun resolved entry =>
      let np := _parse_package_entry entry
      let actual_type := _resolve_package_manager env np.1 dp.1 np.2
      dictAppend resolved actual_type np.1) resolved) []

/-- A platform restriction value as found in manifest entries: either a
single tag string or a list of tag strings. -/
inductive PlatSpec where
  | tag (s : String)
  | tags (ss : List String)
deriving DecidableEq

/-- One raw manifest list entry: a plain string, or a structured object
with a `name` field and the optional `platforms` / `platform` fields. -/
inductive Entry where
  | str (s : String)
  | obj (name : Option String) (platforms : Option PlatSpec)
      (platform : Option PlatSpec)
deriving DecidableEq

/-- A top-level manifest value: a category (backend identifier → entry
list) or the top-level custom entry list. -/
inductive RawVal where
  | backends (bs : List (String × List Entry))
  | pkgList (es : List Entry)
deriving DecidableEq

/-- The raw manifest document: the top-level YAML mapping in insertion
order. In well-formed documents category keys map to `backends` values
and the `"custom"` key to a `pkgList` value. -/
abbrev RawDoc := List (String × RawVal)

/-- Python truthiness of an optional platform value (`None`, `""` and
`[]` are falsy). -/
def platTruthy : Option PlatSpec → Bool
  | none => false
  | some (.tag s) => s ≠ ""
  | some (.tags ss) => !ss.isEmpty

/-- The tag list iterated by `_platform_matches` (a bare string is
wrapped into a singleton list). -/
def platList : PlatSpec → List String
  | .tag s => [s]
  | .tags ss => ss

/-- One iteration of the `_platform_matches` loop: does a single tag
match the current environment. -/
def tagMatches (env : Env) (p : String) : Bool :=
  (p == "wsl" && _is_wsl env) || (p == "darwin" && _is_macos env) ||
  (p == "linux" && env.sysPlatform == "linux") ||
  ((p == "windows" || p == "win32") && env.sysPlatform == "win32") ||
  (p == env.sysPlatform)

/-- Source `_platform_matches`: a falsy restriction always matches,
otherwise some listed tag must match the environment. -/
def _platform_matches (env : Env) (platforms : Option PlatSpec) : Bool :=
  match platforms with
  | none => true
  | some p =>
    if platTruthy (some p) then (platList p).any (tagMatches env) else true

/-- Python `a or b` on the two optional platform fields of a structured
entry (the first operand is returned when truthy). -/
def pyOrPlat (a b : Option PlatSpec) : Option PlatSpec :=
  if platTruthy a then a else b

/-- Source `_parse_custom_entry`: a structured entry yields its `name`
field and `platforms or platform`; a plain string yields itself with no
restriction. -/
def _parse_custom_entry : Entry → Option String × Option PlatSpec
  | .str s => (some s, none)
  | .obj name platforms platform => (name, pyOrPlat platforms platform)

/-- Python truthiness of the optional name returned by
`_parse_custom_entry` (`None` and `""` are falsy). -/
def strTruthy : Option String → Bool
  | none => false
  | some s => s ≠ ""

/-- The list-comprehension body shared by the flatten loops of
`_load_manifest`: the names of the entries that carry a truthy name and
survive the platform restriction, in declaration order. -/
def surviveNames (env : Env) (es : List Entry) : List String :=
  es.filterMap (fun e =>
    let np := _parse_custom_entry e
    match np.1 with
    | some n =>
      if n ≠ "" && _platform_matches env np.2 then some n else none
    | none => none)

/-- The backend dict stored under a category key (`raw_data.get(cat,
{})`); a missing or ill-typed key reads as empty. -/
def rawCatBackends (raw : RawDoc) (cat_name : String) :
    List (String × List Entry) :=
  match aGet raw cat_name with
  | some (.backends bs) => bs
  | _ => []

/-- The top-level custom list when the `"custom"` key is present
(`"custom" in raw_data` followed by iteration). -/
def rawCustomList (raw : RawDoc) : Option (List Entry) :=
  match aGet raw "custom" with
  | some (.pkgList es) => some es
  | _ => none

/-- One iteration of the inner flatten loop of `_load_manifest`: when
the backend identifier is present in the category's data, keep the
surviving names and assign them into the flattened dict when
non-empty. -/
def flattenTypeStep (env : Env) (raw : RawDoc) (cat_name : String)
    (flattened : List (String × List String)) (pkg_type : String) :
    List (String × List String) :=
  match aGet (rawCatBackends raw cat_name) pkg_type with
  | some es =>
    let pkg_names := surviveNames env es
    if pkg_names.isEmpty then flattened
    else aSet flattened pkg_type pkg_names
  | none => flattened

/-- One iteration of the outer flatten loop of `_load_manifest`: the
custom category reads the top-level custom list, every other category
iterates its backend identifiers. -/
def flattenCatStep (env : Env) (raw : RawDoc)
    (flattened : List (String × List String)) (cat_name : String) :
    List (String × List String) :=
  if cat_name == "custom" then
    match rawCustomList raw with
    | some es =>
      let custom_names := surviveNames env es
      if custom_names.isEmpty then flattened
      else aSet flattened "custom" custom_names
    | none => flattened
  else (categoryTypes cat_name).foldl (flattenTypeStep env raw cat_name) flattened

/-- The flatten phase of `_load_manifest`: for each active category and
each of its backend identifiers present in the document, keep the
surviving names; non-empty lists are assigned into the flattened dict. -/
def flattenManifest (env : Env) (raw : RawDoc) : List (String × List String) :=
  (_get_active_categories env).foldl (flattenCatStep env raw) []

/-- Source `_load_manifest` (file reading aside): returns the flattened,
platform-filtered mapping together with the raw nested structure, which
the flatten phase reads but never modifies. -/
def _load_manifest (env : Env) (raw : RawDoc) :
    List (String × List String) × RawDoc :=
  (flattenManifest env raw, raw)

/-- Source `_save_manifest`: `yaml.dump` writes the full in-memory
nested structure verbatim; the document written is the structure
itself. -/
def _save_manifest (raw : RawDoc) : RawDoc := raw

/-- The mutation action argument of `_update_raw_manifest`. -/
inductive MAction where
  | add
  | remove
deriving DecidableEq

/-- The comparison `pkg_name == name` of the removal scan of
`_update_raw_manifest`: a structured entry is returned unchanged by
`_parse_package_entry`, so it never equals a string name. -/
def entryNameMatches (e : Entry) (name : String) : Bool :=
  match e with
  | .str s => (_parse_package_entry s).1 == name
  | .obj .. => false

/-- Python truthiness of the found entry (`if to_remove:`): an empty
string is falsy. The find loop never yields a structured entry (those
never match a string name), so a structured entry's truthiness — a
non-empty mapping in Python — never reaches the guard; it is fixed to
true here. -/
def entryTruthy : Entry → Bool
  | .str s => s ≠ ""
  | .obj .. => true

/-- The effect of `pkg_list.remove(to_remove)` when `to_remove` is the
first entry whose parsed name matches: `list.remove` deletes the first
element equal to `to_remove`, and any entry equal to `to_remove` has
the same parsed name, so the first equal element is exactly the first
matching one. -/
def removeFirstMatching (name : String) : List Entry → List Entry
  | [] => []
  | e :: es =>
    if entryNameMatches e name then es
    else e :: removeFirstMatching name es

/-- Source `_update_raw_manifest`. The custom branch filters all
matching entries and prunes an emptied `"custom"` key; the standard
branch first creates the category/backend keys when absent, then
appends (add, only when the raw string is not already an element) or
finds the first entry with a matching parsed name and removes it —
but only when the found entry is truthy (`if to_remove:`), so a
matched empty-string entry is left in place. -/
def _update_raw_manifest (raw : RawDoc) (pkg_type name : String)
    (action : MAction) : RawDoc :=
  match _get_category_for_type pkg_type with
  | none => raw
  | some cat_name =>
    if cat_name == "custom" then
      let custom_list := (rawCustomList raw).getD []
      match action with
      | .remove =>
        if aHas raw "custom" then
          let rest := custom_list.filter
            (fun e => !((_parse_custom_entry e).1 == some name))
          if rest.isEmpty then aDel raw "custom"
          else aSet raw "custom" (.pkgList rest)
        else raw
      | .add =>
        if custom_list.any (fun e => (_parse_custom_entry e).1 == some name)
        then raw
        else aSet raw "custom" (.pkgList (custom_list ++ [.str name]))
    else
      let raw1 := if !aHas raw cat_name then aSet raw cat_name (.backends [])
                  else raw
      let bs := rawCatBackends raw1 cat_name
      let bs1 := if !aHas bs pkg_type then bs ++ [(pkg_type, [])] else bs
      let pkg_list := (aGet bs1 pkg_type).getD []
      match action with
      | .add =>
        if !pkg_list.contains (.str name) then
          aSet raw1 cat_name (.backends (aSet bs1 pkg_type (pkg_list ++ [.str name])))
        else aSet raw1 cat_name (.backends bs1)
      | .remove =>
        match pkg_list.find? (fun e => entryNameMatches e name) with
        | some to_remove =>
          if entryTruthy to_remove then
            aSet raw1 cat_name
              (.backends (aSet bs1 pkg_type (removeFirstMatching name pkg_list)))
          else aSet raw1 cat_name (.backends bs1)
        | none => aSet raw1 cat_name (.backends bs1)

/-- Source `_find_custom_entry`: the platform restriction of the first
custom entry with the given name, `None` when absent. -/
def _find_custom_entry (raw : RawDoc) (name : String) : Option PlatSpec :=
  ((rawCustomList raw).getD []).foldr
    (fun e acc =>
      let np := _parse_custom_entry e
      if np.1 == some name then np.2 else acc) none

/-- Source dataclass `PackageInfo` (the `version` field plays no role in
any reconciliation decision and is omitted). -/
structure PackageInfo where
  name : String
  display_name : String
deriving DecidableEq

/-- Source `_get_installed_names`: the installed names, with the winget
special case adding non-empty display names and the lowercase image of
the whole set. The Python set is modelled as a list; only membership is
ever consulted. -/
def _get_installed_names (manager_name : String) (pkgs : List PackageInfo) :
    List String :=
  let names := pkgs.map (fun p => p.name)
  if manager_name == "winget" then
    let names1 := names ++
      (pkgs.filter (fun p => p.display_name ≠ "")).map (fun p => p.display_name)
    names1 ++ names1.map (fun n => n.toLower)
  else names

/-- The `missing` computation of the standard branch of `init`
(winget additionally tolerates a lowercase match). -/
def initMissing (manager_name : String) (packages installed : List String) :
    List String :=
  if manager_name == "winget" then
    packages.filter (fun p =>
      !installed.contains p && !installed.contains p.toLower)
  else packages.filter (fun p => !installed.contains p)

/-- What `init` did for one processed backend type: the whole-run abort
of `_get_manager`, the "all N packages installed" report, one standard
`install(missing)` invocation with its result, or the per-name custom
install phase over the missing names. -/
inductive StepOutcome where
  | aborted
  | allInstalled (n : Nat)
  | applied (ok : Bool)
  | customRun (missing : List String)
deriving DecidableEq

/-- The per-run inputs `init` consults for one standard backend type:
its registry name, its resolved package list, its `is_available()`
answer, its `get_installed_packages()` answer, and the success of its
(single) `install(missing)` invocation if one is made. -/
structure BackendInput where
  name : String
  packages : List String
  available : Bool
  installedPkgs : List PackageInfo
  installOk : Bool
deriving DecidableEq

/-- The standard-backend body of the `init` loop, after the
availability gate: the number of `install` invocations made on this
backend, and the reported outcome. -/
def initStandardBackend (b : BackendInput) : Nat × StepOutcome :=
  let installed := _get_installed_names b.name b.installedPkgs
  let missing := initMissing b.name b.packages installed
  if missing.isEmpty then (0, .allInstalled b.packages.length)
  else (1, .applied b.installOk)

/-- Accumulated state of one `init` run: the global success and error
counters, the outcome per processed backend type in order, and whether
the run was aborted by `SystemExit`. -/
structure InitState where
  success_count : Nat
  error_count : Nat
  log : List StepOutcome
  aborted : Bool
deriving DecidableEq

/-- Source dataclass `CustomPackageConfig`. -/
structure CustomPackageConfig where
  name : String
  install : String
  check : String
  remove : String
  shell : String
  depends : List String
  description : String
deriving DecidableEq

/-- A custom spec as stored in the spec source: a bare install-command
string or a structured object. -/
inductive RawSpec where
  | cmd (s : String)
  | obj (install check remove shell : String) (depends : List String)
      (description : String)
deriving DecidableEq

/-- Source `CustomManager._parse_config`: a bare string is just the
install command, all other fields defaulting to empty. -/
def _parse_config (name : String) (config : RawSpec) : CustomPackageConfig :=
  match config with
  | .cmd s => ⟨name, s, "", "", "", [], ""⟩
  | .obj i c r sh d de => ⟨name, i, c, r, sh, d, de⟩

/-- Source `CustomManager.is_installed`: with no check command the
answer is always `False`; otherwise the exit status of the check
command (the oracle `checkOk`, any exception also reading as
`False`). -/
def is_installed (checkOk : String → Bool) (cfg : CustomPackageConfig) :
    Bool :=
  if cfg.check == "" then false else checkOk cfg.check

/-- The scan loop of the custom branch of `init`: spec-less names are
counted as errors, names whose `is_installed` is false are collected as
missing (in declaration order). -/
def initCustomScan (checkOk : String → Bool)
    (specs : List (String × RawSpec)) : List String → List String × Nat
  | [] => ([], 0)
  | name :: rest =>
    let acc := initCustomScan checkOk specs rest
    match aGet specs name with
    | none => (acc.1, acc.2 + 1)
    | some config =>
      if is_installed checkOk (_parse_config name config) then acc
      else (name :: acc.1, acc.2)

/-- The custom branch of `init` for the declared custom names: the
names whose install script is run (every missing one), and the error
count contribution (spec-less names plus failed installs, the oracle
`installOk` giving each script's outcome). -/
def initCustomBackend (checkOk installOk : String → Bool)
    (specs : List (String × RawSpec)) (pkg_names : List String) :
    List String × Nat :=
  let scan := initCustomScan checkOk specs pkg_names
  if scan.1.isEmpty then ([], scan.2)
  else (scan.1, scan.2 + (scan.1.filter (fun n => !installOk n)).length)

/-- The per-run inputs of the custom branch of `init`: the declared
custom names for this run, the loaded spec catalog, and the oracles for
the check and install script outcomes. -/
structure CustomInput where
  pkg_names : List String
  specs : List (String × RawSpec)
  checkOk : String → Bool
  installOk : String → Bool

/-- One entry of the processing order of `init`: the special custom
backend or a standard one. -/
inductive BackendCase where
  | std (b : BackendInput)
  | customB (c : CustomInput)

/-- The `init` loop over the backend types in processing order. An
empty package list is skipped silently. On a standard backend an
unavailable manager makes `_get_manager` raise `SystemExit(1)`, ending
the whole run; otherwise the missing set is computed and at most one
`install` is invoked, its result accumulated into the global counters
(only the standard branch ever increments `success_count`). The custom
branch never aborts; its spec and install errors accumulate into
`error_count`. -/
def initLoop : List BackendCase → Nat → Nat → InitState
  | [], s, e => ⟨s, e, [], false⟩
  | .std b :: rest, s, e =>
    if b.packages.isEmpty then initLoop rest s e
    else if !b.available then ⟨s, e, [.aborted], true⟩
    else
      let installed := _get_installed_names b.name b.installedPkgs
      let missing := initMissing b.name b.packages installed
      if missing.isEmpty then
        let st := initLoop rest s e
        { st with log := .allInstalled b.packages.length :: st.log }
      else if b.installOk then
        let st := initLoop rest (s + 1) e
        { st with log := .applied true :: st.log }
      else
        let st := initLoop rest s (e + 1)
        { st with log := .applied false :: st.log }
  | .customB c :: rest, s, e =>
    if c.pkg_names.isEmpty then initLoop rest s e
    else
      let r := initCustomBackend c.checkOk c.installOk c.specs c.pkg_names
      if r.1.isEmpty then
        let st := initLoop rest s (e + r.2)
        { st with log := .allInstalled c.pkg_names.length :: st.log }
      else
        let st := initLoop rest s (e + r.2)
        { st with log := .customRun r.1 :: st.log }

/-- Source dataclass `CommandResult`. -/
structure CommandResult where
  success : Bool
  message : String
deriving DecidableEq

/-- Source `PackageManager._run_command`: in dry-run mode only print
and report success; otherwise spawn the joined command under the login
shell and report its exit status (`exec` is the external-world oracle;
the failure message text is not modelled). The second component lists
the external commands actually spawned. -/
def _run_command (exec : String → Bool) (cmd : List String)
    (dry_run : Bool) : CommandResult × List String :=
  let cmd_str := String.intercalate " " cmd
  if dry_run then (⟨true, ""⟩, [])
  else (⟨exec cmd_str, ""⟩, [cmd_str])

/-- The standard branch of the `install <type> <name>` command: an
unavailable tool makes `_get_manager` raise `SystemExit(1)`; otherwise,
given the success of `manager.install([name], dry_run)`, the result is
the manifest documents written and whether `SystemExit(1)` was raised.
The manifest is rewritten only on success, outside dry-run, and only
when the name is not already in the flattened section. -/
def installCommandStandard (raw : RawDoc) (data_pkg_list : List String)
    (pkg_type name : String) (available result_success dry_run : Bool) :
    List RawDoc × Bool :=
  if !available then ([], true)
  else if result_success then
    if !dry_run then
      if !data_pkg_list.contains name then
        ([_save_manifest (_update_raw_manifest raw pkg_type name .add)], false)
      else ([], false)
    else ([], false)
  else ([], true)

/-- The `raw_data["custom"].append(name)` step of the custom branch of
the `install` command (creating the key when absent). -/
def rawCustomAppend (raw : RawDoc) (name : String) : RawDoc :=
  aSet raw "custom" (.pkgList ((rawCustomList raw).getD [] ++ [.str name]))

/-- The custom branch of the `install custom <name>` command: missing
spec or platform mismatch exits; otherwise the install script runs
(success given by `result_success`) and on success, outside dry-run,
the name is appended to the manifest when not already declared. -/
def installCommandCustom (env : Env) (raw : RawDoc)
    (data : List (String × List String))
    (specs : List (String × RawSpec)) (name : String)
    (result_success dry_run : Bool) : List RawDoc × Bool :=
  match aGet specs name with
  | none => ([], true)
  | some config =>
    let platforms := _find_custom_entry raw name
    if platTruthy platforms && !_platform_matches env platforms then
      ([], true)
    else if result_success then
      if !dry_run then
        let custom_list := (aGet data "custom").getD []
        if !custom_list.contains name then
          ([_save_manifest (rawCustomAppend raw name)], false)
        else ([], false)
      else ([], false)
    else ([], true)

theorem aGet_eq_some_aHas {α : Type} {l : List (String × α)} {k : String}
    {v : α} (h : aGet l k = some v) : aHas l k = true := by
  induction l with
  | nil => simp [aGet] at h
  | cons q t ih =>
    by_cases hq : (q.1 == k) = true
    · simp [aHas, hq]
    · have hq' : (q.1 == k) = false := by simpa using hq
      simp only [aGet, List.find?, hq'] at h
      simp only [aHas, List.any_cons, hq', Bool.false_or]
      exact ih h

theorem aHas_false_aGet {α : Type} {l : List (String × α)} {k : String}
    (h : aHas l k = false) : aGet l k = none := by
  cases hf : aGet l k with
  | none => rfl
  | some v => rw [aGet_eq_some_aHas hf] at h; simp at h

theorem find?_map_set {α : Type} (l : List (String × α)) (k : String) (v : α)
    (h : aHas l k = true) :
    (l.map (fun p => if p.1 == k then (k, v) else p)).find?
      (fun p => p.1 == k) = some (k, v) := by
  induction l with
  | nil => simp [aHas] at h
  | cons q t ih =>
    by_cases hq : (q.1 == k) = true
    · simp only [List.map_cons, if_pos hq, List.find?]
      simp
    · have hq' : (q.1 == k) = false := by simpa using hq
      simp only [aHas, List.any_cons, hq', Bool.false_or] at h
      simp only [List.map_cons, hq', Bool.false_eq_true, if_false, List.find?,
        hq']
      exact ih h

theorem find?_map_set_ne {α : Type} (l : List (String × α)) (k k' : String)
    (v : α) (h : k' ≠ k) :
    (l.map (fun p => if p.1 == k then (k, v) else p)).find?
      (fun p => p.1 == k') = l.find? (fun p => p.1 == k') := by
  induction l with
  | nil => simp
  | cons q t ih =>
    by_cases hq : (q.1 == k) = true
    · have hqk : q.1 = k := by simpa using hq
      have hne : (q.1 == k') = false := by
        simp only [hqk, beq_eq_false_iff_ne]
        exact fun hkk => h hkk.symm
      have hne2 : (k == k') = false := by simpa [hqk] using hne
      simp only [List.map_cons, if_pos hq, List.find?, hne, hne2]
      exact ih
    · have hq' : (q.1 == k) = false := by simpa using hq
      simp only [List.map_cons, hq', Bool.false_eq_true, if_false, List.find?]
      by_cases hr : (q.1 == k') = true
      · simp only [hr]
      · have hr' : (q.1 == k') = false := by simpa using hr
        simp only [hr']
        exact ih

theorem aGet_aSet_self {α : Type} (l : List (String × α)) (k : String)
    (v : α) : aGet (aSet l k v) k = some v := by
  unfold aSet
  by_cases h : aHas l k = true
  · simp only [h, if_true, aGet, find?_map_set l k v h]
    rfl
  · have h' : aHas l k = false := by simpa using h
    have hn : l.find? (fun p => p.1 == k) = none := by
      have hg := aHas_false_aGet h'
      simp only [aGet] at hg
      cases hf : l.find? (fun p => p.1 == k) with
      | none => rfl
      | some x => rw [hf] at hg; simp at hg
    simp only [h', Bool.false_eq_true, if_false, aGet, List.find?_append, hn,
      Option.none_or, List.find?]
    simp

theorem aGet_aSet_ne {α : Type} (l : List (String × α)) (k k' : String)
    (v : α) (h : k' ≠ k) : aGet (aSet l k v) k' = aGet l k' := by
  unfold aSet
  by_cases hh : aHas l k = true
  · simp only [hh, if_true, aGet, find?_map_set_ne l k k' v h]
  · have h' : aHas l k = false := by simpa using hh
    have hk : (k == k') = false := by
      simp only [beq_eq_false_iff_ne]
      exact fun hkk => h hkk.symm
    simp only [h', Bool.false_eq_true, if_false, aGet, List.find?_append,
      List.find?, hk]
    simp

theorem aHas_aSet_self {α : Type} (l : List (String × α)) (k : String)
    (v : α) : aHas (aSet l k v) k = true :=
  aGet_eq_some_aHas (aGet_aSet_self l k v)

theorem mem_aSet {α : Type} {l : List (String × α)} {k : String} {v : α}
    {q : String × α} (h : q ∈ aSet l k v) : q = (k, v) ∨ q ∈ l := by
  unfold aSet at h
  by_cases hh : aHas l k = true
  · rw [if_pos hh] at h
    rcases List.mem_map.mp h with ⟨r, hr, hfr⟩
    by_cases hrk : (r.1 == k) = true
    · left; rw [← hfr]; simp [hrk]
    · right; rw [← hfr]; simpa [hrk] using hr
  · rw [if_neg hh] at h
    rcases List.mem_append.mp h with h1 | h1
    · exact Or.inr h1
    · exact Or.inl (by simpa using h1)

example : _parse_package_entry "tmux:brew" = ("tmux", some "brew") := by rfl
example : _parse_package_entry "python" = ("python", none) := by rfl
example : _parse_package_entry "a:b:c" = ("a", some "b:c") := by rfl
example : _get_category_for_type "conda" = some "general" := by rfl
example : _get_category_for_type "custom" = some "custom" := by rfl
example :
    _get_active_categories ⟨"darwin", false, fun _ => true⟩ =
      ["mac", "general", "custom"] := by rfl
example :
    _resolve_all_packages ⟨"darwin", false, fun _ => true⟩
        [("conda", ["python", "tmux:brew"])] =
      [("conda", ["python"]), ("brew", ["tmux"])] := by rfl
example :
    _resolve_all_packages ⟨"linux", false, fun _ => false⟩
        [("conda", ["python", "tmux:brew"])] =
      [("conda", ["python", "tmux"])] := by rfl

/-- The override-resolution condition of `_resolve_package_manager` as
one Boolean: the preferred identifier is a registry key, its tool is
available, and one active category lists it. -/
def overrideUsable (env : Env) (p : String) : Bool :=
  (MANAGERS_keys.contains p && env.avail p) &&
    (_get_active_categories env).any
      (fun cat_name => (categoryTypes cat_name).contains p)

theorem resolve_some_eq (env : Env) (pkg_name default_type p : String) :
    _resolve_package_manager env pkg_name default_type (some p) =
      if overrideUsable env p then p else default_type := by
  have hred : _resolve_package_manager env pkg_name default_type (some p) =
      if p ≠ "" then
        if MANAGERS_keys.contains p && env.avail p then
          if (_get_active_categories env).any
              (fun cat_name => (categoryTypes cat_name).contains p) then p
          else default_type
        else default_type
      else default_type := rfl
  rw [hred]
  unfold overrideUsable
  by_cases hp : p = ""
  · subst hp
    simp [show ¬ (("" : String) ∈ MANAGERS_keys) from by decide]
  · rw [if_pos hp]
    cases hc : (MANAGERS_keys.contains p && env.avail p) with
    | false => simp [hc]
    | true =>
      cases hact : (_get_active_categories env).any
          (fun cat_name => (categoryTypes cat_name).contains p) with
      | false => simp [hc, hact]
      | true => simp [hc, hact]

/-- C1: an override entry (name, override) declared under default
backend A resolves to the override B exactly when B is a registry key,
B's tool is available, and B's category is active on the current
platform; with no override (or that condition failing) it resolves to
A. In particular the conda section ["python", "tmux:brew"] resolves to
{conda: ["python"], brew: ["tmux"]} when brew is usable in that sense,
and to {conda: ["python", "tmux"]} otherwise. -/
theorem c1_fallback_resolution :
    (∀ (env : Env) (pkg_name default_type p : String),
      _resolve_package_manager env pkg_name default_type (some p) =
        if (MANAGERS_keys.contains p && env.avail p) &&
            (_get_active_categories env).any
              (fun cat_name => (categoryTypes cat_name).contains p)
        then p else default_type) ∧
    (∀ (env : Env) (pkg_name default_type : String),
      _resolve_package_manager env pkg_name default_type none =
        default_type) ∧
    (∀ env : Env,
      _resolve_all_packages env [("conda", ["python", "tmux:brew"])] =
        if (MANAGERS_keys.contains "brew" && env.avail "brew") &&
            (_get_active_categories env).any
              (fun cat_name => (categoryTypes cat_name).contains "brew")
        then [("conda", ["python"]), ("brew", ["tmux"])]
        else [("conda", ["python", "tmux"])]) := by
  refine ⟨fun env pkg_name default_type p => resolve_some_eq env pkg_name default_type p,
    fun env pkg_name default_type => rfl, fun env => ?_⟩
  have h2 : _parse_package_entry "tmux:brew" = ("tmux", some "brew") := rfl
  show _resolve_all_packages env [("conda", ["python", "tmux:brew"])] =
    if overrideUsable env "brew"
    then [("conda", ["python"]), ("brew", ["tmux"])]
    else [("conda", ["python", "tmux"])]
  unfold _resolve_all_packages
  simp only [List.foldl_cons, List.foldl_nil, h2,
    show (("conda" : String) == "custom") = false from by decide,
    Bool.false_eq_true, if_false,
    show (["python", "tmux:brew"] : List String).isEmpty = false from rfl]
  simp only [show _parse_package_entry "python" = ("python", none) from rfl,
    show _resolve_package_manager env "python" "conda" none = "conda" from rfl,
    resolve_some_eq env "tmux" "conda" "brew"]
  cases hc : overrideUsable env "brew" with
  | true => simp only [if_true]; decide
  | false => simp only [Bool.false_eq_true, if_false]; decide

theorem initLoop_cons_std (b : BackendInput) (rest : List BackendCase)
    (s e : Nat) :
    initLoop (.std b :: rest) s e =
      if b.packages.isEmpty then initLoop rest s e
      else if !b.available then ⟨s, e, [.aborted], true⟩
      else if (initMissing b.name b.packages
          (_get_installed_names b.name b.installedPkgs)).isEmpty then
        { initLoop rest s e with
          log := StepOutcome.allInstalled b.packages.length ::
            (initLoop rest s e).log }
      else if b.installOk then
        { initLoop rest (s + 1) e with
          log := StepOutcome.applied true :: (initLoop rest (s + 1) e).log }
      else
        { initLoop rest s (e + 1) with
          log := StepOutcome.applied false ::
            (initLoop rest s (e + 1)).log } := rfl

theorem initLoop_cons_custom (c : CustomInput) (rest : List BackendCase)
    (s e : Nat) :
    initLoop (.customB c :: rest) s e =
      if c.pkg_names.isEmpty then initLoop rest s e
      else if (initCustomBackend c.checkOk c.installOk c.specs
          c.pkg_names).1.isEmpty then
        { initLoop rest s
            (e + (initCustomBackend c.checkOk c.installOk c.specs
              c.pkg_names).2) with
          log := StepOutcome.allInstalled c.pkg_names.length ::
            (initLoop rest s
              (e + (initCustomBackend c.checkOk c.installOk c.specs
                c.pkg_names).2)).log }
      else
        { initLoop rest s
            (e + (initCustomBackend c.checkOk c.installOk c.specs
              c.pkg_names).2) with
          log := StepOutcome.customRun (initCustomBackend c.checkOk
              c.installOk c.specs c.pkg_names).1 ::
            (initLoop rest s
              (e + (initCustomBackend c.checkOk c.installOk c.specs
                c.pkg_names).2)).log } := rfl

/-- C2: for a standard backend whose reported installed-name set
already contains every declared resolved package name, the `init` body
makes zero install calls on that backend and reports "all N packages
installed" with N the declared count; in the `init` loop such a backend
leaves the global counters untouched. -/
theorem c2_idempotent_reconciliation :
    ∀ (b : BackendInput) (rest : List BackendCase) (s e : Nat),
      (∀ p ∈ b.packages, p ∈ _get_installed_names b.name b.installedPkgs) →
      initStandardBackend b =
        (0, StepOutcome.allInstalled b.packages.length) ∧
      (b.packages.isEmpty = false → b.available = true →
        initLoop (.std b :: rest) s e =
          { initLoop rest s e with
            log := StepOutcome.allInstalled b.packages.length ::
              (initLoop rest s e).log }) := by
  intro b rest s e h
  have hmiss : initMissing b.name b.packages
      (_get_installed_names b.name b.installedPkgs) = [] := by
    unfold initMissing
    by_cases hw : (b.name == "winget") = true
    · rw [if_pos hw]
      apply List.filter_eq_nil_iff.mpr
      intro p hp
      have hmem : p ∈ _get_installed_names b.name b.installedPkgs := h p hp
      simp [hmem]
    · rw [if_neg hw]
      apply List.filter_eq_nil_iff.mpr
      intro p hp
      have hmem : p ∈ _get_installed_names b.name b.installedPkgs := h p hp
      simp [hmem]
  constructor
  · unfold initStandardBackend
    simp [hmiss]
  · intro hne hav
    rw [initLoop_cons_std, hne, hav, hmiss]
    rfl

/-- Witness for C2 at a concrete input: one declared package, already
installed. -/
theorem c2_idempotent_reconciliation_witness :
    initStandardBackend ⟨"brew", ["ripgrep"], true, [⟨"ripgrep", ""⟩], true⟩ =
      (0, StepOutcome.allInstalled 1) ∧
    initLoop [.std ⟨"brew", ["ripgrep"], true, [⟨"ripgrep", ""⟩], true⟩] 0 0 =
      ⟨0, 0, [StepOutcome.allInstalled 1], false⟩ := by
  have h := c2_idempotent_reconciliation
    ⟨"brew", ["ripgrep"], true, [⟨"ripgrep", ""⟩], true⟩ [] 0 0 (by decide)
  refine ⟨h.1, ?_⟩
  rw [h.2 (by decide) (by decide)]
  rfl

/-- C5: a standard backend whose install invocation fails only adds one
to the error counter and its own log entry; the rest of the run is the
unchanged run over the remaining backends (every subsequent backend is
still processed identically). Moreover a run over backends whose
managers are all available is never aborted. -/
theorem c5_cross_backend_failure_isolation :
    (∀ (b : BackendInput) (rest : List BackendCase) (s e : Nat),
      b.packages.isEmpty = false → b.available = true →
      (initMissing b.name b.packages
        (_get_installed_names b.name b.installedPkgs)).isEmpty = false →
      b.installOk = false →
      initLoop (.std b :: rest) s e =
        { initLoop rest s (e + 1) with
          log := StepOutcome.applied false ::
            (initLoop rest s (e + 1)).log }) ∧
    (∀ (bs : List BackendCase) (s e : Nat),
      (∀ b : BackendInput, BackendCase.std b ∈ bs → b.available = true) →
      (initLoop bs s e).aborted = false) := by
  constructor
  · intro b rest s e h1 h2 h3 h4
    rw [initLoop_cons_std, h1, h2, h3, h4]
    rfl
  · intro bs
    induction bs with
    | nil => intro s e hav; rfl
    | cons c rest ih =>
      intro s e hav
      cases c with
      | std b =>
        have hb : b.available = true := hav b (by simp)
        have hrest : ∀ b' : BackendInput,
            BackendCase.std b' ∈ rest → b'.available = true :=
          fun b' hm => hav b' (List.mem_cons_of_mem _ hm)
        rw [initLoop_cons_std, hb]
        by_cases hpe : b.packages.isEmpty = true
        · rw [hpe, if_pos rfl]
          exact ih s e hrest
        · rw [show b.packages.isEmpty = false from by simpa using hpe]
          simp only [Bool.false_eq_true, if_false, Bool.not_true]
          by_cases hm : (initMissing b.name b.packages
              (_get_installed_names b.name b.installedPkgs)).isEmpty = true
          · rw [hm]
            simp only [if_true]
            exact ih s e hrest
          · rw [show (initMissing b.name b.packages
                (_get_installed_names b.name b.installedPkgs)).isEmpty =
                  false from by simpa using hm]
            simp only [Bool.false_eq_true, if_false]
            by_cases hok : b.installOk = true
            · rw [hok]
              simp only [if_true]
              exact ih (s + 1) e hrest
            · rw [show b.installOk = false from by simpa using hok]
              simp only [Bool.false_eq_true, if_false]
              exact ih s (e + 1) hrest
      | customB c =>
        have hrest : ∀ b' : BackendInput,
            BackendCase.std b' ∈ rest → b'.available = true :=
          fun b' hm => hav b' (List.mem_cons_of_mem _ hm)
        rw [initLoop_cons_custom]
        by_cases hpe : c.pkg_names.isEmpty = true
        · rw [hpe, if_pos rfl]
          exact ih s e hrest
        · rw [show c.pkg_names.isEmpty = false from by simpa using hpe]
          simp only [Bool.false_eq_true, if_false]
          by_cases hm : (initCustomBackend c.checkOk c.installOk c.specs
              c.pkg_names).1.isEmpty = true
          · rw [hm]
            simp only [if_true]
            exact ih s (e + (initCustomBackend c.checkOk c.installOk c.specs
              c.pkg_names).2) hrest
          · rw [show (initCustomBackend c.checkOk c.installOk c.specs
                c.pkg_names).1.isEmpty = false from by simpa using hm]
            simp only [Bool.false_eq_true, if_false]
            exact ih s (e + (initCustomBackend c.checkOk c.installOk c.specs
              c.pkg_names).2) hrest

/-- Witness for C5 at a concrete input: the first backend's install
fails, the second is still processed and succeeds. -/
theorem c5_cross_backend_failure_isolation_witness :
    initLoop [.std ⟨"conda", ["numpy"], true, [], false⟩,
        .std ⟨"python", ["ruff"], true, [], true⟩] 0 0 =
      { initLoop [.std ⟨"python", ["ruff"], true, [], true⟩] 0 (0 + 1) with
        log := StepOutcome.applied false ::
          (initLoop [.std ⟨"python", ["ruff"], true, [], true⟩] 0 (0 + 1)).log } ∧
    (initLoop [.std ⟨"conda", ["numpy"], true, [], false⟩,
        .std ⟨"python", ["ruff"], true, [], true⟩] 0 0).aborted = false := by
  constructor
  · exact c5_cross_backend_failure_isolation.1
      ⟨"conda", ["numpy"], true, [], false⟩
      [.std ⟨"python", ["ruff"], true, [], true⟩] 0 0
      (by decide) (by decide) (by decide) (by decide)
  · apply c5_cross_backend_failure_isolation.2
    intro b hm
    simp only [List.mem_cons] at hm
    rcases hm with h | h | h
    · cases BackendCase.std.inj h; rfl
    · cases BackendCase.std.inj h; rfl
    · cases h

/-- C6 (amended): a requested standard backend with a non-empty package
list whose `is_available()` is false makes `_get_manager` raise
`SystemExit(1)`, aborting the entire `init` run; the remaining backends
are not processed. -/
theorem c6_unavailable_backend_aborts_run :
    ∀ (b : BackendInput) (rest : List BackendCase) (s e : Nat),
      b.packages.isEmpty = false → b.available = false →
      initLoop (.std b :: rest) s e = ⟨s, e, [StepOutcome.aborted], true⟩ := by
  intro b rest s e h1 h2
  rw [initLoop_cons_std, h1, h2]
  rfl

/-- An unavailable backend followed by an available one, for the C6
refutation and witness. -/
def c6_unavailable_backend : BackendInput := ⟨"conda", ["numpy"], false, [], true⟩

/-- The second backend of the C6 scenario. -/
def c6_next_backend : BackendInput := ⟨"python", ["ruff"], true, [], true⟩

/-- C6 counterexample: with an unavailable first backend the run is
aborted and the log holds only the abort — the next requested backend
is never processed, contradicting "the overall command continues to the
next backend type rather than aborting the whole run". -/
theorem c6_counterexample :
    (initLoop [.std c6_unavailable_backend, .std c6_next_backend] 0 0).aborted
        = true ∧
    (initLoop [.std c6_unavailable_backend, .std c6_next_backend] 0 0).log =
      [StepOutcome.aborted] := by
  refine ⟨?_, ?_⟩ <;> rfl

/-- Witness for amended C6 at a concrete input. -/
theorem c6_unavailable_backend_aborts_run_witness :
    initLoop [.std c6_unavailable_backend, .std c6_next_backend] 0 0 =
      ⟨0, 0, [StepOutcome.aborted], true⟩ :=
  c6_unavailable_backend_aborts_run c6_unavailable_backend
    [.std c6_next_backend] 0 0 (by decide) (by decide)

theorem initCustomScan_mem (checkOk : String → Bool)
    (specs : List (String × RawSpec)) (pkg_names : List String)
    (name : String) (config : RawSpec)
    (hs : aGet specs name = some config)
    (hc : is_installed checkOk (_parse_config name config) = false)
    (hm : name ∈ pkg_names) :
    name ∈ (initCustomScan checkOk specs pkg_names).1 := by
  induction pkg_names with
  | nil => cases hm
  | cons n rest ih =>
    unfold initCustomScan
    rcases List.mem_cons.mp hm with h | h
    · subst h
      rw [hs]
      simp [hc]
    · cases hg : aGet specs n with
      | none => simpa using ih h
      | some cfg =>
        by_cases hi : is_installed checkOk (_parse_config n cfg) = true
        · simpa [hi] using ih h
        · simp only [show is_installed checkOk (_parse_config n cfg) = false
              from by simpa using hi, Bool.false_eq_true, if_false]
          exact List.mem_cons_of_mem _ (ih h)

/-- C10: a custom package whose parsed spec has no check command is
never reported installed (for every check oracle, i.e. regardless of
any earlier successful install), so every `init` run lists it among the
missing names whose install script is re-run. -/
theorem c10_checkless_custom_reinstalls :
    ∀ (checkOk installOk : String → Bool) (specs : List (String × RawSpec))
      (pkg_names : List String) (name : String) (config : RawSpec),
      aGet specs name = some config →
      (_parse_config name config).check = "" →
      name ∈ pkg_names →
      is_installed checkOk (_parse_config name config) = false ∧
      name ∈ (initCustomBackend checkOk installOk specs pkg_names).1 := by
  intro checkOk installOk specs pkg_names name config hs hch hm
  have hinst : is_installed checkOk (_parse_config name config) = false := by
    simp [is_installed, hch]
  have hscan := initCustomScan_mem checkOk specs pkg_names name config hs
    hinst hm
  refine ⟨hinst, ?_⟩
  unfold initCustomBackend
  have hne : (initCustomScan checkOk specs pkg_names).1.isEmpty = false := by
    cases hl : (initCustomScan checkOk specs pkg_names).1 with
    | nil => rw [hl] at hscan; cases hscan
    | cons a t => rfl
  simp only [hne, Bool.false_eq_true, if_false]
  exact hscan

/-- Witness for C10 at a concrete input: a bare-string spec (hence no
check command) with a check oracle that would report success. -/
theorem c10_checkless_custom_reinstalls_witness :
    is_installed (fun _ => true)
      (_parse_config "fisher" (RawSpec.cmd "fisher-install")) = false ∧
    "fisher" ∈ (initCustomBackend (fun _ => true) (fun _ => true)
      [("fisher", RawSpec.cmd "fisher-install")] ["fisher"]).1 :=
  c10_checkless_custom_reinstalls (fun _ => true) (fun _ => true)
    [("fisher", RawSpec.cmd "fisher-install")] ["fisher"] "fisher"
    (RawSpec.cmd "fisher-install") (by decide) (by decide) (by decide)

/-- C4: loading a manifest (parse plus platform-filtered flatten) and
serializing the raw structure with no mutation in between writes back
the same document: every top-level key — including categories inactive
on the current platform — still holds its original value, so every
declared entry keeps its original encoding (override suffixes
included). The flatten phase only reads the raw structure. -/
theorem c4_round_trip_preservation :
    (∀ (env : Env) (raw : RawDoc),
      _save_manifest (_load_manifest env raw).2 = raw) ∧
    (∀ (env : Env) (raw : RawDoc) (cat_name : String),
      aGet (_save_manifest (_load_manifest env raw).2) cat_name =
        aGet raw cat_name) :=
  ⟨fun env raw => rfl, fun env raw cat_name => rfl⟩

/-- C9: the shared execution primitive in dry-run mode returns success
and spawns no external process, for every command and every behaviour
of the external world; and the single-package install command with
dry-run set writes no manifest document, in both its standard and
custom branches, even when the install reports success. -/
theorem c9_dry_run_frame :
    (∀ (exec : String → Bool) (cmd : List String),
      _run_command exec cmd true = (⟨true, ""⟩, [])) ∧
    (∀ (raw : RawDoc) (data_pkg_list : List String) (pkg_type name : String)
      (available result_success : Bool),
      (installCommandStandard raw data_pkg_list pkg_type name available
        result_success true).1 = []) ∧
    (∀ (env : Env) (raw : RawDoc) (data : List (String × List String))
      (specs : List (String × RawSpec)) (name : String)
      (result_success : Bool),
      (installCommandCustom env raw data specs name result_success
        true).1 = []) := by
  refine ⟨fun exec cmd => rfl, ?_, ?_⟩
  · intro raw data_pkg_list pkg_type name available result_success
    cases available <;> cases result_success <;> rfl
  · intro env raw data specs name result_success
    unfold installCommandCustom
    cases aGet specs name with
    | none => rfl
    | some config =>
      cases hp : (platTruthy (_find_custom_entry raw name) &&
          !_platform_matches env (_find_custom_entry raw name)) with
      | true => simp [hp]
      | false => cases result_success <;> simp [hp]

/-- The single-backend document of the C3 scenario: the conda list
holds exactly one entry and a sibling backend holds another. -/
def c3_doc : RawDoc :=
  [("general", RawVal.backends
    [("conda", [Entry.str "python"]), ("rust", [Entry.str "ripgrep"])])]

/-- C3 counterexample: removing the sole conda entry leaves the conda
key present and mapped to the empty list — the backend key is not
deleted, contradicting the claim that no empty list is left behind. -/
theorem c3_counterexample :
    _update_raw_manifest c3_doc "conda" "python" .remove =
      [("general", RawVal.backends
        [("conda", []), ("rust", [Entry.str "ripgrep"])])] ∧
    aHas (rawCatBackends
      (_update_raw_manifest c3_doc "conda" "python" .remove) "general")
      "conda" = true := by
  refine ⟨?_, ?_⟩ <;> rfl

/-- C3 (amended): removing the last entry of a standard backend's list
— a non-empty string entry whose parsed name matches (an empty-string
entry is falsy and the `if to_remove:` guard leaves it in place) —
empties that list but keeps the backend key (mapped to []); the
category key, the sibling backend keys in the category, and every
other top-level key are unchanged. -/
theorem c3_remove_last_entry_keeps_key :
    ∀ (raw : RawDoc) (cat_name pkg_type name : String)
      (bs : List (String × List Entry)) (s : String),
      _get_category_for_type pkg_type = some cat_name →
      cat_name ≠ "custom" →
      aGet raw cat_name = some (.backends bs) →
      aGet bs pkg_type = some [Entry.str s] →
      (_parse_package_entry s).1 = name →
      s ≠ "" →
      _update_raw_manifest raw pkg_type name .remove =
        aSet raw cat_name (.backends (aSet bs pkg_type [])) ∧
      aGet (rawCatBackends
        (_update_raw_manifest raw pkg_type name .remove) cat_name) pkg_type =
        some [] ∧
      (∀ k, k ≠ cat_name →
        aGet (_update_raw_manifest raw pkg_type name .remove) k =
          aGet raw k) ∧
      (∀ bk, bk ≠ pkg_type →
        aGet (rawCatBackends
          (_update_raw_manifest raw pkg_type name .remove) cat_name) bk =
          aGet bs bk) := by
  intro raw cat_name pkg_type name bs s h1 h2 h3 h4 h5 h6
  have hccat : (cat_name == "custom") = false := beq_eq_false_iff_ne.mpr h2
  have hhas1 : aHas raw cat_name = true := aGet_eq_some_aHas h3
  have hbs : rawCatBackends raw cat_name = bs := by
    unfold rawCatBackends
    rw [h3]
  have hhas2 : aHas bs pkg_type = true := aGet_eq_some_aHas h4
  have hbeq : ((_parse_package_entry s).1 == name) = true := by
    rw [h5]
    exact beq_self_eq_true name
  have hmatch : entryNameMatches (Entry.str s) name = true := by
    simp only [entryNameMatches]
    exact hbeq
  have hfind : [Entry.str s].find? (fun e => entryNameMatches e name) =
      some (Entry.str s) := by
    simp only [List.find?, hmatch]
  have htruthy : entryTruthy (Entry.str s) = true := by
    simp [entryTruthy, h6]
  have hrm : removeFirstMatching name [Entry.str s] = [] := by
    simp only [removeFirstMatching, hmatch, if_true]
  have heq : _update_raw_manifest raw pkg_type name .remove =
      aSet raw cat_name (.backends (aSet bs pkg_type [])) := by
    unfold _update_raw_manifest
    rw [h1]
    simp only [hccat, Bool.false_eq_true, if_false, hhas1, Bool.not_true,
      hbs, hhas2, h4, Option.getD_some, hfind, htruthy, if_true, hrm]
  refine ⟨heq, ?_, ?_, ?_⟩
  · rw [heq]
    show aGet (rawCatBackends (aSet raw cat_name
      (.backends (aSet bs pkg_type []))) cat_name) pkg_type = some []
    unfold rawCatBackends
    rw [aGet_aSet_self]
    exact aGet_aSet_self bs pkg_type []
  · intro k hk
    rw [heq]
    exact aGet_aSet_ne raw cat_name k _ hk
  · intro bk hbk
    rw [heq]
    show aGet (rawCatBackends (aSet raw cat_name
      (.backends (aSet bs pkg_type []))) cat_name) bk = aGet bs bk
    unfold rawCatBackends
    rw [aGet_aSet_self]
    exact aGet_aSet_ne bs pkg_type bk [] hbk

/-- Witness for amended C3 at the concrete document `c3_doc`. -/
theorem c3_remove_last_entry_keeps_key_witness :
    _update_raw_manifest c3_doc "conda" "python" .remove =
      aSet c3_doc "general" (.backends
        (aSet [("conda", [Entry.str "python"]), ("rust", [Entry.str "ripgrep"])]
          "conda" [])) ∧
    aGet (rawCatBackends
      (_update_raw_manifest c3_doc "conda" "python" .remove) "general")
      "conda" = some [] ∧
    aGet (_update_raw_manifest c3_doc "conda" "python" .remove) "custom" =
      aGet c3_doc "custom" ∧
    aGet (rawCatBackends
      (_update_raw_manifest c3_doc "conda" "python" .remove) "general")
      "rust" =
      aGet [("conda", [Entry.str "python"]), ("rust", [Entry.str "ripgrep"])]
        "rust" := by
  have h := c3_remove_last_entry_keeps_key c3_doc "general" "conda" "python"
    [("conda", [Entry.str "python"]), ("rust", [Entry.str "ripgrep"])]
    "python" (by decide) (by decide) (by decide) (by decide) (by decide)
    (by decide)
  exact ⟨h.1, h.2.1, h.2.2.1 "custom" (by decide), h.2.2.2 "rust" (by decide)⟩

/-- The document of the C8 counterexample: the conda list already
declares tmux, but through an override-suffixed entry. -/
def c8_doc : RawDoc :=
  [("general", RawVal.backends [("conda", [Entry.str "tmux:brew"])])]

/-- C8 counterexample: "tmux" is already present in the conda section
by parsed name (as the entry "tmux:brew"), yet the add operation
appends a second entry — the list changes in length and content,
contradicting the claimed no-duplicate rule for override-suffixed
entries. -/
theorem c8_counterexample :
    (_parse_package_entry "tmux:brew").1 = "tmux" ∧
    _update_raw_manifest c8_doc "conda" "tmux" .add =
      [("general", RawVal.backends
        [("conda", [Entry.str "tmux:brew", Entry.str "tmux"])])] := by
  refine ⟨?_, ?_⟩ <;> rfl

/-- C8 (amended): the no-duplicate rule of the add operation compares
raw entry strings in a standard backend list — a name already present
as an exact raw entry is not appended again (the list is unchanged in
length and content), but a name present only inside an
override-suffixed entry does not count as present; the top-level
custom list instead checks parsed names. -/
theorem c8_no_duplicate_insertion :
    (∀ (raw : RawDoc) (cat_name pkg_type name : String)
      (bs : List (String × List Entry)) (pkg_list : List Entry),
      _get_category_for_type pkg_type = some cat_name →
      cat_name ≠ "custom" →
      aGet raw cat_name = some (.backends bs) →
      aGet bs pkg_type = some pkg_list →
      pkg_list.contains (Entry.str name) = true →
      _update_raw_manifest raw pkg_type name .add =
        aSet raw cat_name (.backends bs) ∧
      aGet (rawCatBackends
        (_update_raw_manifest raw pkg_type name .add) cat_name) pkg_type =
        some pkg_list) ∧
    (∀ (raw : RawDoc) (name : String) (es : List Entry),
      rawCustomList raw = some es →
      es.any (fun en => (_parse_custom_entry en).1 == some name) = true →
      _update_raw_manifest raw "custom" name .add = raw) := by
  constructor
  · intro raw cat_name pkg_type name bs pkg_list h1 h2 h3 h4 h5
    have hccat : (cat_name == "custom") = false := beq_eq_false_iff_ne.mpr h2
    have hhas1 : aHas raw cat_name = true := aGet_eq_some_aHas h3
    have hbs : rawCatBackends raw cat_name = bs := by
      unfold rawCatBackends
      rw [h3]
    have hhas2 : aHas bs pkg_type = true := aGet_eq_some_aHas h4
    have heq : _update_raw_manifest raw pkg_type name .add =
        aSet raw cat_name (.backends bs) := by
      unfold _update_raw_manifest
      rw [h1]
      simp only [hccat, Bool.false_eq_true, if_false, hhas1, Bool.not_true,
        hbs, hhas2, h4, Option.getD_some, h5]
    refine ⟨heq, ?_⟩
    rw [heq]
    show aGet (rawCatBackends (aSet raw cat_name (.backends bs)) cat_name)
      pkg_type = some pkg_list
    unfold rawCatBackends
    rw [aGet_aSet_self]
    exact h4
  · intro raw name es hs hany
    unfold _update_raw_manifest
    rw [show _get_category_for_type "custom" = some "custom" from rfl]
    simp only [show (("custom" : String) == "custom") = true from rfl,
      if_true, hs, Option.getD_some, hany, if_true]

/-- Witness for amended C8: an exact-entry duplicate add on a standard
list and a parsed-name duplicate add on the custom list both leave the
document unchanged. -/
theorem c8_no_duplicate_insertion_witness :
    _update_raw_manifest
        [("general", RawVal.backends [("conda", [Entry.str "htop"])])]
        "conda" "htop" .add =
      aSet [("general", RawVal.backends [("conda", [Entry.str "htop"])])]
        "general" (.backends [("conda", [Entry.str "htop"])]) ∧
    _update_raw_manifest [("custom", RawVal.pkgList [Entry.str "fisher"])]
        "custom" "fisher" .add =
      [("custom", RawVal.pkgList [Entry.str "fisher"])] := by
  constructor
  · exact (c8_no_duplicate_insertion.1
      [("general", RawVal.backends [("conda", [Entry.str "htop"])])]
      "general" "conda" "htop" [("conda", [Entry.str "htop"])]
      [Entry.str "htop"] (by decide) (by decide) (by decide) (by decide)
      (by decide)).1
  · exact c8_no_duplicate_insertion.2
      [("custom", RawVal.pkgList [Entry.str "fisher"])] "fisher"
      [Entry.str "fisher"] (by decide) (by decide)

/-- A flattened binding is exactly the surviving-name list of one
declared section of the document, for an active category. -/
def FlatBindingOK (env : Env) (raw : RawDoc) (q : String × List String) :
    Prop :=
  ∃ cat_name es, cat_name ∈ _get_active_categories env ∧
    ((cat_name = "custom" ∧ q.1 = "custom" ∧ rawCustomList raw = some es) ∨
     (cat_name ≠ "custom" ∧
       aGet (rawCatBackends raw cat_name) q.1 = some es)) ∧
    q.2 = surviveNames env es

theorem flattenTypeStep_inv (env : Env) (raw : RawDoc) (cat_name : String)
    (hc : cat_name ∈ _get_active_categories env) (hne : cat_name ≠ "custom")
    (fl : List (String × List String)) (pkg_type : String)
    (hinv : ∀ q ∈ fl, FlatBindingOK env raw q) :
    ∀ q ∈ flattenTypeStep env raw cat_name fl pkg_type,
      FlatBindingOK env raw q := by
  intro q hq
  unfold flattenTypeStep at hq
  cases hg : aGet (rawCatBackends raw cat_name) pkg_type with
  | none => rw [hg] at hq; exact hinv q hq
  | some es =>
    rw [hg] at hq
    have hq' : q ∈ (if (surviveNames env es).isEmpty = true then fl
        else aSet fl pkg_type (surviveNames env es)) := hq
    by_cases he : (surviveNames env es).isEmpty = true
    · rw [if_pos he] at hq'
      exact hinv q hq'
    · rw [if_neg he] at hq'
      rcases mem_aSet hq' with hq1 | hq1
      · subst hq1
        exact ⟨cat_name, es, hc, Or.inr ⟨hne, hg⟩, rfl⟩
      · exact hinv q hq1

theorem flattenTypesFold_inv (env : Env) (raw : RawDoc) (cat_name : String)
    (hc : cat_name ∈ _get_active_categories env)
    (hne : cat_name ≠ "custom") :
    ∀ (types : List String) (fl : List (String × List String)),
      (∀ q ∈ fl, FlatBindingOK env raw q) →
      ∀ q ∈ types.foldl (flattenTypeStep env raw cat_name) fl,
        FlatBindingOK env raw q := by
  intro types
  induction types with
  | nil => intro fl hinv q hq; exact hinv q hq
  | cons t ts ih =>
    intro fl hinv q hq
    rw [List.foldl_cons] at hq
    exact ih _ (flattenTypeStep_inv env raw cat_name hc hne fl t hinv) q hq

theorem flattenCatStep_inv (env : Env) (raw : RawDoc) (cat_name : String)
    (hc : cat_name ∈ _get_active_categories env)
    (fl : List (String × List String))
    (hinv : ∀ q ∈ fl, FlatBindingOK env raw q) :
    ∀ q ∈ flattenCatStep env raw fl cat_name, FlatBindingOK env raw q := by
  intro q hq
  unfold flattenCatStep at hq
  by_cases hcu : (cat_name == "custom") = true
  · have hceq : cat_name = "custom" := by simpa using hcu
    rw [if_pos hcu] at hq
    cases hg : rawCustomList raw with
    | none => rw [hg] at hq; exact hinv q hq
    | some es =>
      rw [hg] at hq
      have hq' : q ∈ (if (surviveNames env es).isEmpty = true then fl
          else aSet fl "custom" (surviveNames env es)) := hq
      by_cases he : (surviveNames env es).isEmpty = true
      · rw [if_pos he] at hq'
        exact hinv q hq'
      · rw [if_neg he] at hq'
        rcases mem_aSet hq' with hq1 | hq1
        · subst hq1
          exact ⟨cat_name, es, hc, Or.inl ⟨hceq, rfl, hg⟩, rfl⟩
        · exact hinv q hq1
  · have hcne : cat_name ≠ "custom" := by simpa using hcu
    rw [if_neg hcu] at hq
    exact flattenTypesFold_inv env raw cat_name hc hcne _ fl hinv q hq

theorem flattenCatsFold_inv (env : Env) (raw : RawDoc) :
    ∀ (cats : List String) (fl : List (String × List String)),
      (∀ c ∈ cats, c ∈ _get_active_categories env) →
      (∀ q ∈ fl, FlatBindingOK env raw q) →
      ∀ q ∈ cats.foldl (flattenCatStep env raw) fl,
        FlatBindingOK env raw q := by
  intro cats
  induction cats with
  | nil => intro fl hcs hinv q hq; exact hinv q hq
  | cons c cs ih =>
    intro fl hcs hinv q hq
    rw [List.foldl_cons] at hq
    exact ih _ (fun c' hc' => hcs c' (List.mem_cons_of_mem _ hc'))
      (flattenCatStep_inv env raw c (hcs c (by simp)) fl hinv) q hq

/-- The environment and the duplicate-declaring document of the C7
refutation. -/
def c7_env : Env := ⟨"linux", false, fun _ => false⟩

/-- A document whose conda section declares the same name twice. -/
def c7_doc : RawDoc :=
  [("general", RawVal.backends
    [("conda", [Entry.str "python", Entry.str "python"])])]

/-- C7 counterexample: when the raw manifest declares a name twice in
one backend section, the flattened list keeps both occurrences — the
flatten phase performs no de-duplication, contradicting the claimed
de-duplicated flattened mapping. -/
theorem c7_counterexample :
    aGet (flattenManifest c7_env c7_doc) "conda" =
      some ["python", "python"] ∧
    ¬ (["python", "python"] : List String).Nodup := by
  refine ⟨rfl, by decide⟩

/-- C7 (amended): every binding of the flattened mapping is exactly the
ordered surviving-name list of one declared section of an active
category — order and multiplicity are those of the raw declaration, and
no de-duplication is applied (so a name declared twice in a section
appears twice in the flattened list). -/
theorem c7_flatten_keeps_declared_multiplicity :
    ∀ (env : Env) (raw : RawDoc) (k : String) (v : List String),
      (k, v) ∈ flattenManifest env raw →
      ∃ cat_name es, cat_name ∈ _get_active_categories env ∧
        ((cat_name = "custom" ∧ k = "custom" ∧
            rawCustomList raw = some es) ∨
         (cat_name ≠ "custom" ∧
            aGet (rawCatBackends raw cat_name) k = some es)) ∧
        v = surviveNames env es := by
  intro env raw k v hq
  exact flattenCatsFold_inv env raw (_get_active_categories env) []
    (fun c hc => hc) (fun q hq' => absurd hq' (List.not_mem_nil q)) (k, v) hq

/-- Witness for amended C7 at the concrete duplicate-declaring
document. -/
theorem c7_flatten_keeps_declared_multiplicity_witness :
    ∃ cat_name es, cat_name ∈ _get_active_categories c7_env ∧
      ((cat_name = "custom" ∧ "conda" = "custom" ∧
          rawCustomList c7_doc = some es) ∨
       (cat_name ≠ "custom" ∧
          aGet (rawCatBackends c7_doc cat_name) "conda" = some es)) ∧
      ["python", "python"] = surviveNames c7_env es :=
  c7_flatten_keeps_declared_multiplicity c7_env c7_doc "conda"
    ["python", "python"] (by decide)

end PkgMgr
